import Mathlib

/-!
Shallow embedding of the path-confinement and file-model layer of the
`nas` repository (src/src/file.rs and src/server/src/routes/fs/delete.rs).

Paths are modelled as Lean `String`s (the Rust code works on UTF-8 valid
`String`/`PathBuf` values throughout); the raw URL segment handed to
percent-decoding is modelled as its byte sequence (`List Nat`), since
percent-decoding and UTF-8 validation act on bytes.  The filesystem is an
abstract state `FS` recording which paths are directories, which are
existing regular files, and their sizes.
-/

namespace NAS

/-- Byte-level model of `percent_encoding::percent_decode_str`: a `%`
followed by two hex digits decodes to one byte; a `%` not followed by two
hex digits is passed through literally. -/
def hexVal (b : Nat) : Option Nat :=
  if 48 ≤ b ∧ b ≤ 57 then some (b - 48)
  else if 97 ≤ b ∧ b ≤ 102 then some (b - 87)
  else if 65 ≤ b ∧ b ≤ 70 then some (b - 55)
  else none

def percentDecode : List Nat → List Nat
  | [] => []
  | 37 :: h1 :: h2 :: rest =>
    match hexVal h1, hexVal h2 with
    | some x, some y => (16 * x + y) :: percentDecode rest
    | _, _ => 37 :: percentDecode (h1 :: h2 :: rest)
  | b :: rest => b :: percentDecode rest

/-- Continuation byte of a multi-byte UTF-8 sequence. -/
def isCont (b : Nat) : Bool := 128 ≤ b && b ≤ 191

/-- Strict UTF-8 decoder over bytes, following the validity ranges that
`str::from_utf8` enforces (RFC 3629: no overlongs, no surrogates, max
U+10FFFF).  Returns `none` exactly when the byte sequence is not valid
UTF-8, mirroring `decode_utf8` returning `Err`. -/
def utf8DecodeAux : List Nat → Option (List Char)
  | [] => some []
  | b :: bs =>
    if b ≤ 127 then
      match utf8DecodeAux bs with
      | some cs => some (Char.ofNat b :: cs)
      | none => none
    else if 194 ≤ b && b ≤ 223 then
      match bs with
      | b1 :: bs1 =>
        if isCont b1 then
          match utf8DecodeAux bs1 with
          | some cs => some (Char.ofNat ((b - 192) * 64 + (b1 - 128)) :: cs)
          | none => none
        else none
      | [] => none
    else if (b = 224 || (225 ≤ b && b ≤ 236) || b = 237 || (238 ≤ b && b ≤ 239)) then
      match bs with
      | b1 :: b2 :: bs2 =>
        let okB1 : Bool :=
          if b = 224 then 160 ≤ b1 && b1 ≤ 191
          else if b = 237 then 128 ≤ b1 && b1 ≤ 159
          else isCont b1
        if okB1 && isCont b2 then
          match utf8DecodeAux bs2 with
          | some cs =>
            some (Char.ofNat ((b - 224) * 4096 + (b1 - 128) * 64 + (b2 - 128)) :: cs)
          | none => none
        else none
      | _ => none
    else if (b = 240 || (241 ≤ b && b ≤ 243) || b = 244) then
      match bs with
      | b1 :: b2 :: b3 :: bs3 =>
        let okB1 : Bool :=
          if b = 240 then 144 ≤ b1 && b1 ≤ 191
          else if b = 244 then 128 ≤ b1 && b1 ≤ 143
          else isCont b1
        if okB1 && isCont b2 && isCont b3 then
          match utf8DecodeAux bs3 with
          | some cs =>
            some (Char.ofNat
              ((b - 240) * 262144 + (b1 - 128) * 4096 + (b2 - 128) * 64 + (b3 - 128)) :: cs)
          | none => none
        else none
      | _ => none
    else none

def utf8Decode (bs : List Nat) : Option String :=
  match utf8DecodeAux bs with
  | some cs => some ⟨cs⟩
  | none => none

/-- UTF-8 bytes of an ASCII string (used to build concrete raw inputs). -/
def strBytes (s : String) : List Nat := s.data.map Char.toNat

/-- Character-list prefix test (first argument is the candidate prefix). -/
def listStarts : List Char → List Char → Bool
  | [], _ => true
  | _ :: _, [] => false
  | a :: as, b :: bs => a == b && listStarts as bs

/-- Model of `str::starts_with`: `strStarts s pre` holds when `s` begins
with `pre` (byte comparison in Rust; character comparison here, which
agrees on valid UTF-8). -/
def strStarts (s pre : String) : Bool := listStarts pre.data s.data

/-- Drop the first `n` characters of a string (used to model
`strip_prefix` once the prefix test has succeeded; the prefixes involved
are ASCII, so characters and bytes coincide). -/
def strDropN (s : String) (n : Nat) : String := ⟨s.data.drop n⟩

/-- Split a character list at every `/`, mirroring `str::split` with the
path separator (an empty input yields one empty group). -/
def splitSlash : List Char → List (List Char)
  | [] => [[]]
  | c :: cs =>
    if c = '/' then [] :: splitSlash cs
    else
      match splitSlash cs with
      | [] => [[c]]
      | g :: gs => (c :: g) :: gs

/-- The process-wide storage root constant `ROOT` of src/src/file.rs,
including its trailing slash exactly as in the source. -/
def ROOT : String := "/home/ozark/nas_root/"

/-- The root directory without the trailing slash. -/
def rootDir : String := "/home/ozark/nas_root"

/-- Model of `Path::new(ROOT).join(rel)` on Unix followed by `to_str`:
pushing an absolute path replaces the buffer; otherwise the relative
string is appended (ROOT already ends with a separator, so no extra
separator is inserted). -/
def joinRoot (rel : String) : String :=
  if strStarts rel "/" then rel else ROOT ++ rel

/-- Components of a path string in the sense of `std::path::Components`
on Unix: split on the separator, dropping empty and `.` components. -/
def pathComps (p : String) : List String :=
  ((splitSlash p.data).map (fun cs => (⟨cs⟩ : String))).filter
    (fun c => c ≠ "" ∧ c ≠ ".")

/-- Model of `Path::file_name`: the last component if it is a normal
component; `none` for an empty component list or a trailing `..`. -/
def fileName (p : String) : Option String :=
  match (pathComps p).getLast? with
  | some c => if c = ".." then none else some c
  | none => none

/-- Model of the extension part of `split_file_at_dot` on a file name:
the substring after the final `.`; no extension when the name is `..`,
has no `.`, or its only `.` is the leading character. -/
def extFromName (nm : String) : Option String :=
  if nm = ".." then none
  else
    let cs := nm.toList
    if cs.contains '.' then
      let afterRev := cs.reverse.takeWhile (fun c => c ≠ '.')
      if afterRev.length + 1 = cs.length then none
      else some ⟨afterRev.reverse⟩
    else none

/-- Model of `Path::extension`. -/
def pathExtension (p : String) : Option String :=
  match fileName p with
  | some nm => extFromName nm
  | none => none

/-- Abstract filesystem state: which path strings name directories,
which name existing regular files, and the size of files. -/
structure FS where
  isDir : String → Bool
  isFile : String → Bool
  size : String → Nat

/-- The closed file-category enum of src/src/file.rs, in declaration
order (the derived `Ord` on the Rust enum orders variants by this
declaration order). -/
inductive NASFileCategory where
  | Directory
  | Audio
  | Video
  | StreamPlaylist
  | StreamSegment
  | Document
  | Image
  | Unknown
deriving DecidableEq, Repr

/-- Error kinds produced by the embedded operations (the Rust code uses
`anyhow` messages and `NASError`; only the kind of failure matters). -/
inductive NASError where
  | outsideRoot (p : String)
  | fileNameError (p : String)
  | extensionError (p : String)
  | ioError (p : String)
  | decodeError
  | notFound
  | deleteFailed (p : String)
deriving DecidableEq, Repr

/-- The `NASFile` struct of src/src/file.rs, with its fields in source
order (the order matters for the derived `Ord`). -/
structure NASFile where
  name : String
  relative_path_str : String
  absolute_path_str : String
  category : NASFileCategory
  extension : String
  size_bytes : Nat
deriving DecidableEq, Repr

/-- The closed extension table of `NASFile::category` (case-sensitive
exact match; anything else is `Unknown`). -/
def lookupExt (e : String) : NASFileCategory :=
  if e = "mp3" then .Audio
  else if e = "avi" then .Video
  else if e = "mkv" then .Video
  else if e = "mp4" then .Video
  else if e = "m3u8" then .StreamPlaylist
  else if e = "ts" then .StreamSegment
  else if e = "pdf" then .Document
  else if e = "txt" then .Document
  else if e = "png" then .Image
  else if e = "jpg" then .Image
  else if e = "jpeg" then .Image
  else if e = "webp" then .Image
  else .Unknown

/-- Model of `NASFile::category` (src/src/file.rs lines 83-117): a
directory is `Directory`; otherwise the extension is looked up in the
closed table, and a missing extension falls through to `Unknown`.  This
function never fails. -/
def category (fs : FS) (p : String) : NASFileCategory :=
  if fs.isDir p then .Directory
  else
    match pathExtension p with
    | some e => lookupExt e
    | none => .Unknown

/-- Model of `NASFile::extension` (src/src/file.rs lines 119-137): empty
for directories; otherwise `Path::extension`, turned into an error when
it is `None`. -/
def extensionF (fs : FS) (p : String) : Except NASError String :=
  if fs.isDir p then .ok ""
  else
    match pathExtension p with
    | some e => .ok e
    | none => .error (.extensionError p)

/-- Model of `NASFile::size_bytes`: 0 for directories; the metadata size
for existing files; an I/O error when the node does not exist. -/
def sizeBytes (fs : FS) (p : String) : Except NASError Nat :=
  if fs.isDir p then .ok 0
  else if fs.isFile p then .ok (fs.size p)
  else .error (.ioError p)

/-- Model of `NASFile::from_pathbuf` (src/src/file.rs lines 20-57): the
confinement check is `absolute_path_str.starts_with(ROOT)`, a string
prefix test against the root constant with its trailing slash; then the
relative path is the remainder, and name, category, extension and size
are computed in source order. -/
def fromPathbuf (fs : FS) (p : String) : Except NASError NASFile :=
  if strStarts p ROOT then
    match fileName p with
    | none => .error (.fileNameError p)
    | some nm =>
      match extensionF fs p with
      | .error e => .error e
      | .ok ext =>
        match sizeBytes fs p with
        | .error e => .error e
        | .ok sz => .ok ⟨nm, strDropN p ROOT.length, p, category fs p, ext, sz⟩
  else .error (.outsideRoot p)

/-- Model of `NASFile::from_relative_path_str` (src/src/file.rs lines
59-66): percent-decode the raw segment, reject invalid UTF-8, join the
decoded relative path onto ROOT, then run `from_pathbuf`. -/
def fromRelativePathStr (fs : FS) (raw : List Nat) : Except NASError NASFile :=
  match utf8Decode (percentDecode raw) with
  | none => .error .decodeError
  | some rel => fromPathbuf fs (joinRoot rel)

/-- Model of `NASFile::relative_to_absolute_str` (src/src/file.rs lines
155-175): percent-decode, reject invalid UTF-8, return the joined path
string. -/
def relToAbsStr (raw : List Nat) : Except NASError String :=
  match utf8Decode (percentDecode raw) with
  | none => .error .decodeError
  | some rel => .ok (joinRoot rel)

/-- Lexical normalization of a component list: a `..` pops the previous
component (or is dropped at the top).  Used to state where a path
actually points and to give filesystem semantics to the removal
primitives. -/
def normAux (acc : List String) : List String → List String
  | [] => acc.reverse
  | c :: rest => if c = ".." then normAux acc.tail rest else normAux (c :: acc) rest

def normComps (p : String) : List String := normAux [] (pathComps p)

/-- Leading-component test: the second list begins with the first. -/
def leadsWith : List String → List String → Bool
  | [], _ => true
  | _ :: _, [] => false
  | a :: as, b :: bs => a == b && leadsWith as bs

/-- Path `q` denotes the same node as `p` or a descendant of it. -/
def underPath (p q : String) : Bool := leadsWith (normComps p) (normComps q)

/-- Paths `p` and `q` denote the same node. -/
def samePath (p q : String) : Bool := normComps p == normComps q

/-- The two removal primitives the delete handler can invoke:
`fs::remove_dir_all` and `fs::remove_file`. -/
inductive DeleteAction where
  | removeDirAll (p : String)
  | removeFile (p : String)
deriving DecidableEq, Repr

/-- The dispatch of the delete handler (src/server/src/routes/fs/delete.rs
lines 52-56): a pure binary branch on the already-determined category.
The filesystem is not consulted here. -/
def deleteDispatch (cat : NASFileCategory) (p : String) : DeleteAction :=
  match cat with
  | .Directory => .removeDirAll p
  | _ => .removeFile p

/-- Filesystem effect of a removal primitive: `remove_dir_all` removes
the node and every descendant; `remove_file` removes exactly the named
node. -/
def applyDelete (fs : FS) : DeleteAction → FS
  | .removeDirAll p =>
    ⟨fun q => fs.isDir q && !(underPath p q),
     fun q => fs.isFile q && !(underPath p q),
     fs.size⟩
  | .removeFile p =>
    ⟨fs.isDir,
     fun q => fs.isFile q && !(samePath p q),
     fs.size⟩

/-- Result of running a removal primitive: failure when the target does
not exist (or has the wrong kind), success with the updated filesystem
otherwise; the handler collapses any failure to its path-only delete
error. -/
def removeBy (fs : FS) : DeleteAction → Except NASError FS
  | .removeDirAll p =>
    if fs.isDir p then .ok (applyDelete fs (.removeDirAll p))
    else .error (.deleteFailed p)
  | .removeFile p =>
    if fs.isFile p then .ok (applyDelete fs (.removeFile p))
    else .error (.deleteFailed p)

/-- Modelled from the spec: `AbsolutePath::category`, called by the
delete handler (src/server/src/routes/fs/delete.rs line 50), is code of
this repository that is not under src/.  Per spec section 4.3, classification
requires one metadata probe and fails with `IoError::NotFound` when the
node does not exist; for existing nodes it agrees with the extension
table of `NASFile::category`. -/
def categoryF (fs : FS) (p : String) : Except NASError NASFileCategory :=
  if fs.isDir p || fs.isFile p then .ok (category fs p)
  else .error .notFound

/-- The delete route (src/server/src/routes/fs/delete.rs lines 46-57)
after authentication: decode the raw segment, resolve it under ROOT with
the confinement check, classify it, dispatch on the category, and run
the removal primitive. -/
def deleteRoute (fs : FS) (raw : List Nat) : Except NASError FS :=
  match utf8Decode (percentDecode raw) with
  | none => .error .decodeError
  | some rel =>
    let p := joinRoot rel
    if strStarts p ROOT then
      match categoryF fs p with
      | .error e => .error e
      | .ok cat => removeBy fs (deleteDispatch cat p)
    else .error (.outsideRoot p)

/-- Model of the comparison `Ordering` on strings: Rust `String` ordering
is lexicographic on bytes, which on valid UTF-8 agrees with lexicographic
comparison by Unicode code point, the order of Lean `String`. -/
def cmpStr (a b : String) : Ordering :=
  if a < b then .lt else if b < a then .gt else .eq

/-- The hand-written `PartialOrd::partial_cmp` for `NASFile`
(src/src/file.rs lines 199-213): directories compare by name among
themselves, a directory precedes any non-directory, and non-directories
compare by name. -/
def nasCmp (a b : NASFile) : Option Ordering :=
  if a.category = NASFileCategory.Directory then
    if b.category = NASFileCategory.Directory then some (cmpStr a.name b.name)
    else some .lt
  else if b.category = NASFileCategory.Directory then some .gt
  else some (cmpStr a.name b.name)

/-- The strict order induced by the hand-written comparator. -/
def nasLt (a b : NASFile) : Prop := nasCmp a b = some .lt

instance (a b : NASFile) : Decidable (nasLt a b) := by
  unfold nasLt; infer_instance

/-- Directory test used by the comparator. -/
def isDirE (a : NASFile) : Prop := a.category = NASFileCategory.Directory

instance (a : NASFile) : Decidable (isDirE a) := by
  unfold isDirE; infer_instance

/-- Declaration-order rank of a category variant, as used by the derived
`Ord` on the Rust enum `NASFileCategory`. -/
def catRank : NASFileCategory → Nat
  | .Directory => 0
  | .Audio => 1
  | .Video => 2
  | .StreamPlaylist => 3
  | .StreamSegment => 4
  | .Document => 5
  | .Image => 6
  | .Unknown => 7

def cmpNat (a b : Nat) : Ordering :=
  if a < b then .lt else if b < a then .gt else .eq

/-- The derived `Ord::cmp` for `NASFile` (from `#[derive(Eq, Ord)]` on
the struct): lexicographic over the fields in declaration order, with
the category compared by variant declaration order. -/
def derCmp (a b : NASFile) : Ordering :=
  (cmpStr a.name b.name).then
    ((cmpStr a.relative_path_str b.relative_path_str).then
      ((cmpStr a.absolute_path_str b.absolute_path_str).then
        ((cmpNat (catRank a.category) (catRank b.category)).then
          ((cmpStr a.extension b.extension).then
            (cmpNat a.size_bytes b.size_bytes)))))

/-- Sample filesystem with no nodes at all. -/
def fsEmpty : FS := ⟨fun _ => false, fun _ => false, fun _ => 0⟩

/-- Sample filesystem in which every path names a directory. -/
def fsAllDir : FS := ⟨fun _ => true, fun _ => false, fun _ => 0⟩

/-- Sample filesystem containing only the storage root directory. -/
def fsRootOnly : FS := ⟨fun q => q == ROOT, fun _ => false, fun _ => 0⟩

/-- Sample filesystem for the traversal scenario: the storage root
exists and a file lives just above it, reachable through one `..`
segment. -/
def fsTraversal : FS :=
  ⟨fun q => q == ROOT, fun q => q == "/home/ozark/nas_root/../secrets.txt", fun _ => 5⟩

/-- Sample filesystem containing a single regular file whose base name
has no dot. -/
def fsReadme : FS :=
  ⟨fun _ => false, fun q => q == "/home/ozark/nas_root/README", fun _ => 3⟩

/-- Helper instance: decidable equality of `Except` results. -/
instance {ε α : Type} [DecidableEq ε] [DecidableEq α] : DecidableEq (Except ε α)
  | .ok x, .ok y =>
    if h : x = y then isTrue (by rw [h]) else isFalse (by simp [h])
  | .ok _, .error _ => isFalse (by simp)
  | .error _, .ok _ => isFalse (by simp)
  | .error e, .error f =>
    if h : e = f then isTrue (by rw [h]) else isFalse (by simp [h])

theorem cmpStr_lt_iff {a b : String} : cmpStr a b = .lt ↔ a < b := by
  unfold cmpStr
  split_ifs with h1 h2
  · exact iff_of_true rfl h1
  · exact iff_of_false (by decide) h1
  · exact iff_of_false (by decide) h1

theorem cmpStr_gt_iff {a b : String} : cmpStr a b = .gt ↔ b < a := by
  unfold cmpStr
  split_ifs with h1 h2
  · exact iff_of_false (by decide) (asymm h1)
  · exact iff_of_true rfl h2
  · exact iff_of_false (by decide) h2

theorem cmpStr_eq_iff {a b : String} : cmpStr a b = .eq ↔ a = b := by
  unfold cmpStr
  split_ifs with h1 h2
  · exact iff_of_false (by decide) (ne_of_lt h1)
  · exact iff_of_false (by decide) (Ne.symm (ne_of_lt h2))
  · exact iff_of_true rfl (le_antisymm (not_lt.mp h2) (not_lt.mp h1))

theorem fileName_ne_dotdot {p nm : String} (hn : fileName p = some nm) :
    nm ≠ ".." := by
  unfold fileName at hn
  rcases hE : (pathComps p).getLast? with _ | c
  · rw [hE] at hn; exact absurd hn (by simp)
  · rw [hE] at hn
    by_cases hc : c = ".."
    · simp [hc] at hn
    · simp [hc] at hn; exact hn ▸ hc

end NAS

namespace NAS

/-- C1: the spec requires that for every relative-path string containing
`..` segments or absolute-path-like prefixes, resolution
(`NASFile::from_relative_path_str` composed with the confinement check
in `NASFile::from_pathbuf`) returns an outside-root error and never
yields a path outside the root.  The code violates this: the confinement
check is a string-prefix test on the unnormalized join, so the relative
path `../secrets.txt` joins to `/home/ozark/nas_root/../secrets.txt`,
passes the check, and construction succeeds, although the normalized
component sequence of the result lies outside the root components. -/
theorem C1_traversal_accepted :
    fromRelativePathStr fsTraversal (strBytes "../secrets.txt") =
      .ok ⟨"secrets.txt", "../secrets.txt", "/home/ozark/nas_root/../secrets.txt",
        .Document, "txt", 5⟩
    ∧ strStarts "/home/ozark/nas_root/../secrets.txt" ROOT = true
    ∧ leadsWith (pathComps rootDir) (normComps "/home/ozark/nas_root/../secrets.txt")
        = false := by
  refine ⟨by decide, by decide, by decide⟩

/-- C2: any relative path whose join with the root produces a lexical
sibling of the root that shares the root as a string prefix (it starts
with the root directory string but does not continue with a separator)
is rejected with an outside-root error: the ROOT constant carries a
trailing slash, so the string-prefix test cannot accept a sibling. -/
theorem C2_sibling (fs : FS) (rel : String)
    (h1 : strStarts (joinRoot rel) rootDir = true)
    (h2 : strStarts (joinRoot rel) ROOT = false) :
    fromPathbuf fs (joinRoot rel) = .error (.outsideRoot (joinRoot rel)) := by
  unfold fromPathbuf
  simp [h2]

theorem C2_sibling_witness :
    fromPathbuf fsEmpty (joinRoot "/home/ozark/nas_root-secret/x") =
      .error (.outsideRoot (joinRoot "/home/ozark/nas_root-secret/x")) :=
  C2_sibling fsEmpty "/home/ozark/nas_root-secret/x" (by decide) (by decide)

/-- C3: the empty relative-path string is not rejected by
`NASFile::from_relative_path_str`: the join yields the storage root
directory itself, which passes the confinement check and is classified
`Directory`, so the delete dispatch applied to it invokes the recursive
removal of the entire storage root subtree. -/
theorem C3_empty_delete (fs : FS) (h : fs.isDir ROOT = true) :
    fromRelativePathStr fs (strBytes "") =
      .ok ⟨"nas_root", "", ROOT, .Directory, "", 0⟩
    ∧ deleteDispatch .Directory ROOT = .removeDirAll ROOT
    ∧ ∀ q, underPath ROOT q = true →
        (applyDelete fs (.removeDirAll ROOT)).isDir q = false
        ∧ (applyDelete fs (.removeDirAll ROOT)).isFile q = false := by
  refine ⟨?_, rfl, ?_⟩
  · show fromPathbuf fs (joinRoot "") = _
    have hj : joinRoot "" = ROOT := rfl
    rw [hj]
    have hs : strStarts ROOT ROOT = true := by decide
    have hfn : fileName ROOT = some "nas_root" := by decide
    have hdrop : strDropN ROOT ROOT.length = "" := by decide
    simp [fromPathbuf, extensionF, sizeBytes, category, h, hs, hfn, hdrop]
  · intro q hq
    constructor <;> simp [applyDelete, hq]

theorem C3_empty_delete_witness :
    fromRelativePathStr fsRootOnly (strBytes "") =
      .ok ⟨"nas_root", "", ROOT, .Directory, "", 0⟩ :=
  (C3_empty_delete fsRootOnly (by decide)).1

/-- C5: for a resolved path at which no filesystem node exists,
classification (modelled from the spec, see `categoryF`) fails with the
NotFound error, and consequently the delete route answers NotFound and
never the Failed-class deletion error. -/
theorem C5_notfound (fs : FS) (raw : List Nat) (rel : String)
    (hdec : utf8Decode (percentDecode raw) = some rel)
    (hin : strStarts (joinRoot rel) ROOT = true)
    (hd : fs.isDir (joinRoot rel) = false)
    (hf : fs.isFile (joinRoot rel) = false) :
    categoryF fs (joinRoot rel) = .error .notFound
    ∧ deleteRoute fs raw = .error .notFound
    ∧ ∀ q, deleteRoute fs raw ≠ .error (.deleteFailed q) := by
  have hcat : categoryF fs (joinRoot rel) = .error .notFound := by
    simp [categoryF, hd, hf]
  have hroute : deleteRoute fs raw = .error .notFound := by
    unfold deleteRoute
    rw [hdec]
    simp [hin, hcat]
  exact ⟨hcat, hroute, fun q => by rw [hroute]; simp⟩

theorem C5_notfound_witness :
    deleteRoute fsEmpty (strBytes "ghost.txt") = .error .notFound :=
  (C5_notfound fsEmpty (strBytes "ghost.txt") "ghost.txt"
    (by decide) (by decide) rfl rfl).2.1

/-- C6 counterexample: the claim states that for an existing
non-directory node whose base name contains no dot, classification and
`NASFile` construction succeed with category `Unknown`.  On the code,
classification indeed yields `Unknown`, but construction fails, because
`NASFile::extension` turns the absent extension into an error. -/
theorem C6_counterexample :
    fsReadme.isFile "/home/ozark/nas_root/README" = true
    ∧ fsReadme.isDir "/home/ozark/nas_root/README" = false
    ∧ fileName "/home/ozark/nas_root/README" = some "README"
    ∧ ("README".toList.contains '.') = false
    ∧ category fsReadme "/home/ozark/nas_root/README" = .Unknown
    ∧ fromPathbuf fsReadme "/home/ozark/nas_root/README" =
        .error (.extensionError "/home/ozark/nas_root/README") := by
  refine ⟨by decide, by decide, by decide, by decide, by decide, by decide⟩

/-- C6 (amended): for every existing non-directory node inside the root
whose base name contains no dot, classification yields `Unknown`, but
`NASFile` construction fails with the extension error rather than
succeeding: `NASFile::extension` turns the missing dot into a failure. -/
theorem C6_amended (fs : FS) (p nm : String)
    (hin : strStarts p ROOT = true)
    (hd : fs.isDir p = false) (hf : fs.isFile p = true)
    (hn : fileName p = some nm) (hdot : nm.toList.contains '.' = false) :
    category fs p = .Unknown
    ∧ fromPathbuf fs p = .error (.extensionError p) := by
  have hext : extFromName nm = none := by
    have hdot2 : ('.' : Char) ∉ nm.data := by simpa using hdot
    unfold extFromName
    simp [fileName_ne_dotdot hn, hdot2]
  have hpe : pathExtension p = none := by
    simp [pathExtension, hn, hext]
  constructor
  · simp [category, hd, hpe]
  · simp [fromPathbuf, hin, hn, extensionF, hd, hpe]

theorem C6_amended_witness :
    category fsReadme "/home/ozark/nas_root/README" = .Unknown
    ∧ fromPathbuf fsReadme "/home/ozark/nas_root/README" =
      .error (.extensionError "/home/ozark/nas_root/README") :=
  C6_amended fsReadme "/home/ozark/nas_root/README" "README"
    (by decide) rfl (by decide) (by decide) (by decide)

/-- C7: the delete operation is a binary dispatch on the
already-determined category (`deleteDispatch` consults no filesystem
state): category `Directory` invokes the recursive removal of the whole
subtree, any other category invokes a single-node removal that leaves
every other node untouched. -/
theorem C7_dispatch :
    (∀ p, deleteDispatch .Directory p = .removeDirAll p)
    ∧ (∀ cat p, cat ≠ NASFileCategory.Directory → deleteDispatch cat p = .removeFile p)
    ∧ (∀ fs p q, underPath p q = true →
        (applyDelete fs (.removeDirAll p)).isDir q = false
        ∧ (applyDelete fs (.removeDirAll p)).isFile q = false)
    ∧ (∀ fs p q, samePath p q = false →
        (applyDelete fs (.removeFile p)).isFile q = fs.isFile q
        ∧ (applyDelete fs (.removeFile p)).isDir q = fs.isDir q)
    ∧ (∀ fs p, (applyDelete fs (.removeFile p)).isFile p = false) := by
  refine ⟨fun p => rfl, ?_, ?_, ?_, ?_⟩
  · intro cat p hcat
    cases cat <;> first | exact absurd rfl hcat | rfl
  · intro fs p q hq
    constructor <;> simp [applyDelete, hq]
  · intro fs p q hq
    constructor <;> simp [applyDelete, hq]
  · intro fs p
    simp [applyDelete, samePath]

theorem C7_dispatch_witness :
    deleteDispatch NASFileCategory.Unknown "/home/ozark/nas_root/a.txt" =
      .removeFile "/home/ozark/nas_root/a.txt" :=
  C7_dispatch.2.1 NASFileCategory.Unknown "/home/ozark/nas_root/a.txt" (by decide)

/-- C8: classification maps a directory to `Directory` regardless of any
dotted suffix of its name; a non-directory is classified by exact,
case-sensitive lookup of its extension in the closed table
(`video.mp4` to Video, `song.mp3` to Audio, `doc.pdf` to Document), and
every unmatched extension (such as `archive.zip` or the upper-case
`MP4`) maps to `Unknown`. -/
theorem C8_table :
    (∀ fs p, fs.isDir p = true → category fs p = .Directory)
    ∧ (∀ fs p e, fs.isDir p = false → pathExtension p = some e →
        category fs p = lookupExt e)
    ∧ lookupExt "mp4" = .Video
    ∧ lookupExt "mp3" = .Audio
    ∧ lookupExt "pdf" = .Document
    ∧ lookupExt "zip" = .Unknown
    ∧ lookupExt "MP4" = .Unknown
    ∧ (∀ fs, fs.isDir (ROOT ++ "video.mp4") = false →
        category fs (ROOT ++ "video.mp4") = .Video)
    ∧ (∀ fs, fs.isDir (ROOT ++ "song.mp3") = false →
        category fs (ROOT ++ "song.mp3") = .Audio)
    ∧ (∀ fs, fs.isDir (ROOT ++ "doc.pdf") = false →
        category fs (ROOT ++ "doc.pdf") = .Document)
    ∧ (∀ fs, fs.isDir (ROOT ++ "archive.zip") = false →
        category fs (ROOT ++ "archive.zip") = .Unknown) := by
  refine ⟨fun fs p h => by simp [category, h],
    fun fs p e hd hpe => by simp [category, hd, hpe],
    by decide, by decide, by decide, by decide, by decide, ?_, ?_, ?_, ?_⟩
  · intro fs h
    have hp : pathExtension (ROOT ++ "video.mp4") = some "mp4" := by decide
    have hl : lookupExt "mp4" = .Video := by decide
    simp [category, h, hp, hl]
  · intro fs h
    have hp : pathExtension (ROOT ++ "song.mp3") = some "mp3" := by decide
    have hl : lookupExt "mp3" = .Audio := by decide
    simp [category, h, hp, hl]
  · intro fs h
    have hp : pathExtension (ROOT ++ "doc.pdf") = some "pdf" := by decide
    have hl : lookupExt "pdf" = .Document := by decide
    simp [category, h, hp, hl]
  · intro fs h
    have hp : pathExtension (ROOT ++ "archive.zip") = some "zip" := by decide
    have hl : lookupExt "zip" = .Unknown := by decide
    simp [category, h, hp, hl]

theorem C8_table_witness :
    category fsAllDir (ROOT ++ "dir.mp4") = .Directory
    ∧ category fsEmpty (ROOT ++ "video.mp4") = .Video :=
  ⟨C8_table.1 fsAllDir (ROOT ++ "dir.mp4") rfl,
    C8_table.2.2.2.2.2.2.2.1 fsEmpty rfl⟩

/-- C9: a raw path segment whose percent-decoded byte sequence is not
valid UTF-8 makes `NASFile::from_relative_path_str` and
`NASFile::relative_to_absolute_str` fail with the typed decode error;
no path is constructed from the malformed input. -/
theorem C9_decode (fs : FS) (raw : List Nat)
    (h : utf8Decode (percentDecode raw) = none) :
    fromRelativePathStr fs raw = .error .decodeError
    ∧ relToAbsStr raw = .error .decodeError := by
  constructor
  · unfold fromRelativePathStr; rw [h]
  · unfold relToAbsStr; rw [h]

theorem C9_decode_witness :
    fromRelativePathStr fsEmpty [37, 70, 70] = .error .decodeError :=
  (C9_decode fsEmpty [37, 70, 70] (by decide)).1

theorem nasCmp_lt_char (a b : NASFile) :
    nasLt a b ↔
      ((isDirE a ∧ ¬ isDirE b) ∨ ((isDirE a ↔ isDirE b) ∧ a.name < b.name)) := by
  unfold nasLt nasCmp isDirE
  by_cases ha : a.category = NASFileCategory.Directory <;>
    by_cases hb : b.category = NASFileCategory.Directory <;>
      simp [ha, hb, cmpStr_lt_iff]

theorem cmpStr_trichotomy (x y : String) :
    cmpStr x y = .lt ∨ cmpStr y x = .lt ∨ cmpStr x y = .eq := by
  rcases lt_trichotomy x y with h | h | h
  · exact Or.inl (cmpStr_lt_iff.mpr h)
  · exact Or.inr (Or.inr (cmpStr_eq_iff.mpr h))
  · exact Or.inr (Or.inl (cmpStr_lt_iff.mpr h))

/-- C4: the listing order on `NASFile` values is a total order in which
`a` sorts before `b` exactly when `a` is a directory and `b` is not, or
both or neither are directories and the name of `a` is lexicographically
smaller (by Unicode code point); the order is transitive and total, and
every directory precedes every non-directory. -/
theorem C4_ordering :
    (∀ a b : NASFile, nasLt a b ↔
      ((isDirE a ∧ ¬ isDirE b) ∨ ((isDirE a ↔ isDirE b) ∧ a.name < b.name)))
    ∧ (∀ a b c : NASFile, nasLt a b → nasLt b c → nasLt a c)
    ∧ (∀ a b : NASFile, nasLt a b ∨ nasLt b a ∨ nasCmp a b = some .eq)
    ∧ (∀ a b : NASFile, isDirE a → ¬ isDirE b → nasLt a b) := by
  have htrans : ∀ a b c : NASFile, nasLt a b → nasLt b c → nasLt a c := by
    intro a b c hab hbc
    rw [nasCmp_lt_char] at hab hbc ⊢
    by_cases ha : isDirE a <;> by_cases hb : isDirE b <;> by_cases hc : isDirE c <;>
      simp_all <;> exact lt_trans hab hbc
  have htot : ∀ a b : NASFile, nasLt a b ∨ nasLt b a ∨ nasCmp a b = some .eq := by
    intro a b
    by_cases ha : a.category = NASFileCategory.Directory <;>
      by_cases hb : b.category = NASFileCategory.Directory
    · simpa [nasLt, nasCmp, ha, hb] using cmpStr_trichotomy a.name b.name
    · simp [nasLt, nasCmp, ha, hb]
    · simp [nasLt, nasCmp, ha, hb]
    · simpa [nasLt, nasCmp, ha, hb] using cmpStr_trichotomy a.name b.name
  have hdirs : ∀ a b : NASFile, isDirE a → ¬ isDirE b → nasLt a b := by
    intro a b ha hb
    unfold isDirE at ha hb
    simp [nasLt, nasCmp, ha, hb]
  exact ⟨nasCmp_lt_char, htrans, htot, hdirs⟩

theorem C4_ordering_witness :
    nasLt ⟨"zdir", "", "", .Directory, "", 0⟩ ⟨"afile", "", "", .Unknown, "", 0⟩ :=
  C4_ordering.2.2.2 ⟨"zdir", "", "", .Directory, "", 0⟩
    ⟨"afile", "", "", .Unknown, "", 0⟩ (by decide) (by decide)

/-- C10: the derived total comparison (field-lexicographic `Ord::cmp`)
and the hand-written comparator of `NASFile` disagree: for a directory
named `zzz` and a non-directory named `aaa`, the derived comparison
orders the non-directory first while the hand-written comparator orders
the directory first. -/
theorem C10_cmp_disagree :
    derCmp ⟨"aaa", "", "", .Unknown, "", 0⟩ ⟨"zzz", "", "", .Directory, "", 0⟩ = .lt
    ∧ nasCmp ⟨"zzz", "", "", .Directory, "", 0⟩ ⟨"aaa", "", "", .Unknown, "", 0⟩
        = some .lt
    ∧ nasCmp ⟨"aaa", "", "", .Unknown, "", 0⟩ ⟨"zzz", "", "", .Directory, "", 0⟩
        = some .gt
    ∧ ("aaa" : String) < "zzz"
    ∧ (NASFileCategory.Directory = NASFileCategory.Directory)
    ∧ (NASFileCategory.Unknown ≠ NASFileCategory.Directory) := by
  have haz : ("aaa" : String) < "zzz" := by
    simp only [String.lt_iff_toList_lt]
    decide
  refine ⟨?_, rfl, rfl, haz, rfl, by decide⟩
  show (cmpStr "aaa" "zzz").then _ = .lt
  rw [cmpStr_lt_iff.mpr haz]
  rfl

end NAS
